import Mathlib

/-!
# Verification of the Wikipedia digest editorial engine

Shallow embedding of the content-scoring and extraction pipeline of
`wikipedia_digest_email.py` (section classifier, biography scorer, snippet
extractor, archive-resolution chain, diversity selector, seen-items ledger)
together with proofs and refutations of the specification's claims.

Strings are modelled as `List Char` (`Str`), matching Python's sequence of
code points.  Python's string primitives (`strip`, `split`, `splitlines`,
`str.title`, word splitting) are re-implemented faithfully below; the model
treats `'\n'` as the line terminator, which is the only terminator occurring
in the plain-text inputs the program feeds to these functions.  The regex
pattern tables are abstracted as explicit match oracles (functions counting
pattern hits) passed as parameters wherever the verified properties do not
depend on the concrete patterns.
-/

set_option maxRecDepth 100000

namespace WikiDigest

abbrev Str := List Char

/-- Python `str.strip()` on the leading side: drop leading whitespace. -/
def dropLeadWs (l : Str) : Str := l.dropWhile Char.isWhitespace

/-- Python `str.strip()`: drop leading and trailing whitespace. -/
def trimC (l : Str) : Str :=
  ((l.dropWhile Char.isWhitespace).reverse.dropWhile Char.isWhitespace).reverse

/-- Split on a single character separator (every occurrence), like
Python `s.split(c)` for a one-character separator. -/
def splitOnChar (sep : Char) : Str → List Str
  | [] => [[]]
  | c :: cs =>
    if c = sep then [] :: splitOnChar sep cs
    else
      match splitOnChar sep cs with
      | [] => [[c]]
      | w :: ws => (c :: w) :: ws

/-- Python `str.splitlines()` restricted to `'\n'` line terminators:
terminators end lines, and a trailing terminator does not open an
empty final line.  `pySplitlines "" = []`. -/
def pySplitlines (l : Str) : List Str :=
  let parts := splitOnChar '\n' l
  if parts.getLast? = some [] then parts.dropLast else parts

/-- Does `sep` occur as a contiguous substring?  Python `sep in s`. -/
def containsSub (sep : Str) : Str → Bool
  | [] => decide (sep = [])
  | c :: cs => sep.isPrefixOf (c :: cs) || containsSub sep cs

/-- Prepend a character to the first piece of a split result. -/
def consFirst (c : Char) : List Str → List Str
  | [] => [[c]]
  | w :: ws => (c :: w) :: ws

/-- Python `s.split("\n\n")`: split on leftmost non-overlapping occurrences
of a double newline. -/
def splitNN : Str → List Str
  | [] => [[]]
  | [c] => [[c]]
  | c :: d :: rest =>
    if c = '\n' ∧ d = '\n' then [] :: splitNN rest
    else consFirst c (splitNN (d :: rest))

/-- Does the string contain a double newline? -/
def hasDoubleNl : Str → Bool
  | [] => false
  | [_] => false
  | c :: d :: rest => (decide (c = '\n') && decide (d = '\n')) || hasDoubleNl (d :: rest)

/-- Word counter: number of maximal runs of non-whitespace characters,
i.e. `len(s.split())` in Python.  The flag records whether the scan is
currently inside a word. -/
def wcAux : Bool → Str → Nat
  | _, [] => 0
  | inWord, c :: cs =>
    if Char.isWhitespace c then wcAux false cs
    else (if inWord then 0 else 1) + wcAux true cs

/-- Python `len(s.split())`. -/
def wordCount (l : Str) : Nat := wcAux false l

/-- Python `" ".join(parts)`. -/
def joinSp : List Str → Str
  | [] => []
  | [s] => s
  | s :: rest => s ++ ' ' :: joinSp rest

/-- Python `"\n\n".join(parts)` (used to reconstruct a document from
paragraph-shaped pieces). -/
def joinNN : List Str → Str
  | [] => []
  | [s] => s
  | s :: rest => s ++ '\n' :: '\n' :: joinNN rest

/-- Python `re.split(r'(?<=[.!?])\s+', text)`: cut after any of `.!?`
that is immediately followed by whitespace, consuming the whitespace run.
Structurally recursive on a fuel argument (initialised to the text length,
which the scan never exhausts) so that the kernel can evaluate it. -/
def sentSplitAux : Nat → Str → Str → List Str
  | _, [], acc => [acc.reverse]
  | 0, l, acc => [acc.reverse ++ l]
  | fuel + 1, c :: cs, acc =>
    if (c = '.' ∨ c = '!' ∨ c = '?') ∧ (cs.headD 'x').isWhitespace ∧ cs ≠ [] then
      (acc.reverse ++ [c]) :: sentSplitAux fuel (cs.dropWhile Char.isWhitespace) []
    else
      sentSplitAux fuel cs (c :: acc)

def sentSplit (l : Str) : List Str := sentSplitAux l.length l []

/-- Python `str.lower()` (ASCII model). -/
def lowerStr (l : Str) : Str := l.map Char.toLower

/-- Python `str.title()` (ASCII model): the first alphabetic character of
each alphabetic run is uppercased, the rest lowercased. -/
def titleAux : Bool → Str → Str
  | _, [] => []
  | prevAlpha, c :: cs =>
    if c.isAlpha then
      (if prevAlpha then c.toLower else c.toUpper) :: titleAux true cs
    else
      c :: titleAux false cs

def titleStr (l : Str) : Str := titleAux false l

/-- Shorthand: a Lean string literal as a `Str` (list of code points). -/
def S (s : String) : Str := s.data

/-! ## Section classifier (`_split_sections`, `_section_score`) -/

/-- The `_SKIP_SECTION_KEYWORDS` table (source lines 702-713). -/
def skipSectionKeywords : List Str :=
  [S "popular culture", S "in fiction", S "cultural legacy", S "cultural impact",
   S "cultural depictions", S "adaptations", S "film adaptations", S "in media",
   S "books about", S "novels about", S "filmography", S "discography",
   S "bibliography", S "works", S "publications", S "selected works",
   S "see also", S "references", S "notes", S "further reading", S "external links",
   S "awards", S "honours", S "honors", S "decorations", S "legacy",
   S "political legacy", S "historical legacy", S "historiography",
   S "critical reception", S "critical analysis", S "assessment",
   S "reputation", S "influence", S "impact", S "commemoration",
   S "memorials", S "statues", S "postage stamps"]

/-- The `_PREFER_SECTION_KEYWORDS` table (source lines 715-722). -/
def preferSectionKeywords : List Str :=
  [S "personal life", S "private life", S "early life", S "childhood",
   S "early years", S "youth", S "education", S "upbringing",
   S "character", S "personality", S "personal beliefs", S "religion",
   S "family", S "marriages", S "relationships", S "health",
   S "later life", S "later years", S "death", S "final years",
   S "anecdotes", S "personal", S "private"]

/-- `_section_score(header)`: 0.0 for skip sections, 2.0 for preferred
sections, 1.0 otherwise, encoded as the naturals 0 / 2 / 1. -/
def section_score (header : Str) : Nat :=
  let h := trimC (lowerStr header)
  if skipSectionKeywords.any (fun kw => containsSub kw h) then 0
  else if preferSectionKeywords.any (fun kw => containsSub kw h) then 2
  else 1

/-- `first_line[-1] in ".!?,;"` (false on the empty line). -/
def endsInPunct (l : Str) : Bool :=
  match l.getLast? with
  | some c => decide (c ∈ ['.', '!', '?', ',', ';'])
  | none => false

/-- `lines[0].strip()`: the stripped first line of a paragraph. -/
def firstLineOf (para : Str) : Str := trimC ((pySplitlines para).headD [])

/-- The header test applied by `_split_sections` to a (stripped, non-blank)
paragraph: the first line is non-empty, shorter than 80 characters, does
not end in one of `.!?,;`, does not start with a digit, and the paragraph
consists of exactly one line. -/
def is_header (para : Str) : Bool :=
  decide (0 < (firstLineOf para).length) &&
  decide ((firstLineOf para).length < 80) &&
  !(endsInPunct (firstLineOf para)) &&
  !(((firstLineOf para).headD ' ').isDigit) &&
  decide ((pySplitlines para).length = 1)

structure Section where
  header : Str
  text : Str
  multiplier : Nat
deriving DecidableEq, Repr

/-- The paragraph loop of `_split_sections`, carrying the current header
and the list of accumulated body paragraphs. -/
def splitSectionsLoop : List Str → Str → List Str → List Section
  | [], ch, chunks =>
    if chunks ≠ [] then [⟨ch, joinSp chunks, section_score ch⟩] else []
  | para :: rest, ch, chunks =>
    let p := trimC para
    if p = [] then splitSectionsLoop rest ch chunks
    else
      let firstLine := firstLineOf p
      if is_header p then
        if chunks ≠ [] then
          ⟨ch, joinSp chunks, section_score ch⟩ :: splitSectionsLoop rest firstLine []
        else
          splitSectionsLoop rest firstLine chunks
      else
        splitSectionsLoop rest ch (chunks ++ [p])

/-- `_split_sections(extract)` (source lines 736-783). -/
def split_sections (extract : Str) : List Section :=
  splitSectionsLoop (splitNN extract) [] []

/-! ## Sentence filters (`_is_sentence_fragment`; `_is_cultural_sentence`
is regex-driven and abstracted as an oracle parameter below) -/

/-- `_CONTINUATION_STARTS` (source lines 807-816). -/
def continuationStarts : List Str :=
  [S "and", S "but", S "or", S "nor", S "yet", S "so", S "for",
   S "however", S "although", S "though", S "while", S "whilst",
   S "which", S "who", S "whom", S "whose", S "that", S "where", S "when",
   S "because", S "since", S "after", S "before", S "until", S "once",
   S "his", S "her", S "their", S "its",
   S "with", S "through", S "via", S "upon", S "among", S "between",
   S "as", S "if", S "unless", S "despite",
   S "including", S "having", S "being", S "making", S "leaving"]

/-- `_is_sentence_fragment(s)` (source lines 819-831): empty strings and
strings not starting with an uppercase letter are fragments, as are
strings whose first word (lowercased, with trailing `.,;:` stripped)
is one of the continuation words. -/
def is_sentence_fragment (s : Str) : Bool :=
  match s with
  | [] => true
  | c :: _ =>
    if !c.isUpper then true
    else
      let firstWord :=
        s.takeWhile (fun c => !(c.isWhitespace || c = ',' || c = ';' || c = ':'))
      let firstWord :=
        ((lowerStr firstWord).reverse.dropWhile
          (fun c => c = '.' || c = ',' || c = ';' || c = ':')).reverse
      decide (firstWord ∈ continuationStarts)

/-! ## Snippet extractor (`extract_anecdote`)

The regex layer is abstracted by two oracles:
* `hits s` — the number of entries of `scoring_patterns` (the union of the
  pattern lists of the candidate's matched signals, or of all secondary
  signals when that union is empty) that match sentence `s` lowercased,
  i.e. `sum(1 for p in scoring_patterns if re.search(p, sent.lower()))`;
* `cult s` — `_is_cultural_sentence(s)`.
All verified properties hold for every choice of these oracles. -/

structure Snippet where
  label : Str
  text : Str
deriving DecidableEq, Repr

/-- The `(header, text)` pool iterated by `extract_anecdote`: preferred
sections (multiplier 2.0) first, then normal sections (multiplier 1.0);
skip sections are excluded. -/
def sectionPool (extract : Str) : List (Str × Str) :=
  let sections := split_sections extract
  (sections.filter (fun s => s.multiplier = 2)).map (fun s => (s.header, s.text)) ++
  (sections.filter (fun s => s.multiplier = 1)).map (fun s => (s.header, s.text))

/-- The filtered sentence list of one section: sentences of more than 35
characters (after stripping) that are neither cultural references nor
mid-thought fragments. -/
def candSentences (cult : Str → Bool) (text : Str) : List Str :=
  (sentSplit text).filterMap (fun s =>
    let st := trimC s
    if 35 < st.length ∧ ¬cult s ∧ ¬(is_sentence_fragment st) then some st else none)

/-- Index of the first sentence attaining the maximal hit count — the
result of `scored.sort(key=lambda x: (-x[0], x[1])); scored[0][1]`. -/
def argmaxAux (f : Str → Nat) : List Str → Nat → Nat → Nat → Nat
  | [], _, bi, _ => bi
  | s :: rest, i, bi, bv =>
    if f s > bv then argmaxAux f rest (i + 1) i (f s)
    else argmaxAux f rest (i + 1) bi bv

def argmaxIdx (f : Str → Nat) : List Str → Nat
  | [] => 0
  | s :: rest => argmaxAux f rest 1 0 (f s)

/-- The window-building loop of `extract_anecdote` (source lines 892-899):
extend the window sentence by sentence; a sentence that would overflow the
budget stops the loop unless the window is still empty. -/
def buildWindowAux (budget : Nat) : List Str → List Str → Nat → List Str × Nat
  | [], w, wc => (w, wc)
  | s :: rest, w, wc =>
    let sw := wordCount s
    if wc + sw > budget ∧ w ≠ [] then (w, wc)
    else buildWindowAux budget rest (w ++ [s]) (wc + sw)

def buildWindow (budget : Nat) (sents : List Str) : List Str × Nat :=
  buildWindowAux budget sents [] 0

/-- Bland generic labels replaced by the default label. -/
def blandLabels : List Str :=
  [S "biography", S "life", S "overview", S "introduction", S "background", []]

def lifeCharLabel : Str := S "Life & Character"

/-- Label deduplication (source lines 910-916): the second and later uses
of a base label get a Roman-numeral suffix. -/
def romanSuffix (count : Nat) : Str :=
  [S "II", S "III", S "IV", S "V"].getD (min (count - 2) 3) []

/-- The per-section loop of `extract_anecdote` (source lines 865-919).
State: collected snippets, running word total, label-use counts. -/
def snippetLoop (hits : Str → Nat) (cult : Str → Bool) :
    List (Str × Str) → List Snippet → Nat → (Str → Nat) → List Snippet
  | [], snips, _, _ => snips
  | (header, text) :: rest, snips, total, used =>
    if snips.length ≥ 3 ∨ total ≥ 500 then snips
    else
      let sentences := candSentences cult text
      if sentences = [] then snippetLoop hits cult rest snips total used
      else
        let bestIdx := argmaxIdx hits sentences
        let budget := min 200 (500 - total)
        let bw := buildWindow budget (sentences.drop (bestIdx - 1))
        if bw.2 < 20 then snippetLoop hits cult rest snips total used
        else
          let label0 := if trimC header ≠ [] then titleStr (trimC header) else lifeCharLabel
          let label1 := if lowerStr label0 ∈ blandLabels then lifeCharLabel else label0
          let count := used label1 + 1
          let used' := fun l => if l = label1 then count else used l
          let label := if count > 1 then label1 ++ ' ' :: '(' :: (romanSuffix count ++ [')'])
                       else label1
          snippetLoop hits cult rest (snips ++ [⟨label, joinSp bw.1⟩]) (total + bw.2) used'

/-- The section-driven phase of `extract_anecdote`. -/
def sectionSnippets (hits : Str → Nat) (cult : Str → Bool) (extract : Str) :
    List Snippet :=
  snippetLoop hits cult (sectionPool extract) [] 0 (fun _ => 0)

/-- The fallback scan of `extract_anecdote` (source lines 921-937): collect
non-cultural, non-fragment sentences of the whole document up to 400 words.
Unlike the per-section window, a would-overflow sentence always stops the
loop, even as first sentence. -/
def fallbackWindowAux : List Str → List Str → Nat → List Str × Nat
  | [], w, wc => (w, wc)
  | s :: rest, w, wc =>
    let sw := wordCount s
    if wc + sw > 400 then (w, wc)
    else fallbackWindowAux rest (w ++ [s]) (wc + sw)

def fallbackSnippet (cult : Str → Bool) (extract : Str) : Snippet :=
  ⟨lifeCharLabel, joinSp (fallbackWindowAux (candSentences cult extract) [] 0).1⟩

/-- `extract_anecdote(extract, signals)` (source lines 834-939), with the
regex layer abstracted as the oracles `hits` / `cult` (the `signals`
argument only determines `scoring_patterns` and is absorbed by `hits`). -/
def extract_anecdote (hits : Str → Nat) (cult : Str → Bool) (extract : Str) :
    List Snippet :=
  let snips := sectionSnippets hits cult extract
  if snips = [] then [fallbackSnippet cult extract] else snips

/-- Sum of the word counts of the returned snippets (the quantity bounded
by the 500-word budget claim; the program recomputes it the same way in
`has_rich_anecdote` as `len(s.get("text","").split())`). -/
def sumSnippetWords (snips : List Snippet) : Nat :=
  (snips.map (fun s => wordCount s.text)).sum

/-! ## Biography scorer (`score_biography`)

The category tables `_PRIMARY_SIGNALS` / `_SECONDARY_SIGNALS` are kept as
their key lists (in source dict order); the regex layer is abstracted as an
oracle `patHits cat t` giving `sum(1 for p in table[cat] if re.search(p, t))`
for the lowercased text `t`. -/

def primarySignalNames : List Str := [S "watercooler", S "mental_model"]

def secondarySignalNames : List Str :=
  [S "last_of_kind", S "underdog", S "diy", S "defiance", S "heretic",
   S "humanising", S "irony", S "direct_quote", S "chance_encounter",
   S "late_bloom", S "origin_story", S "vivid_detail"]

structure ScoreResult where
  primary : Nat
  secondary : Nat
  total : Nat
  signals : List Str
deriving DecidableEq, Repr

/-- `score_biography(extract)` (source lines 626-650): texts that are empty
or shorter than 400 characters score zero; otherwise categories whose hit
count reaches the tier threshold (4 primary / 3 secondary) are matched, and
`total = primary*10 + secondary*2 + min(len(extract)//4000, 3)`. -/
def score_biography (patHits : Str → Str → Nat) (extract : Str) : ScoreResult :=
  if extract = [] ∨ extract.length < 400 then ⟨0, 0, 0, []⟩
  else
    let textLower := lowerStr extract
    let primaryCats := primarySignalNames.filter (fun c => patHits c textLower ≥ 4)
    let secondaryCats := secondarySignalNames.filter (fun c => patHits c textLower ≥ 3)
    let lengthBonus := min (extract.length / 4000) 3
    ⟨primaryCats.length, secondaryCats.length,
     primaryCats.length * 10 + secondaryCats.length * 2 + lengthBonus,
     primaryCats ++ secondaryCats⟩

/-! ## Seen-items ledger (`save_seen`) -/

structure WikiSeenEntry where
  title : Str
  date : Str
deriving DecidableEq, Repr

structure ObitSeenEntry where
  url : Str
  name : Str
  date : Str
deriving DecidableEq, Repr

structure SeenRegistry where
  wikipedia : List WikiSeenEntry
  obituaries : List ObitSeenEntry
deriving DecidableEq, Repr

/-- The pruning step of `save_seen` (source lines 154-156): keep exactly the
entries whose date string compares `>=` the cutoff date string (missing
dates behave as the empty string; `Str` comparison is lexicographic by code
point, as in Python). -/
def pruneSeen (seen : SeenRegistry) (cutoff : Str) : SeenRegistry :=
  { wikipedia := seen.wikipedia.filter (fun e => decide (cutoff ≤ e.date)),
    obituaries := seen.obituaries.filter (fun e => decide (cutoff ≤ e.date)) }

/-- The appending step of `save_seen` (source lines 146-152), before the
prune: new titles / urls are appended with today's date. -/
def appendSeen (seen : SeenRegistry) (newWikiTitles : List Str)
    (newObitUrls : List (Str × Str)) (today : Str) : SeenRegistry :=
  { wikipedia := seen.wikipedia ++ newWikiTitles.map (fun t => ⟨t, today⟩),
    obituaries := seen.obituaries ++ newObitUrls.map (fun u => ⟨u.1, u.2, today⟩) }

/-- The pure core of `save_seen` : append, then prune. -/
def save_seen (seen : SeenRegistry) (newWikiTitles : List Str)
    (newObitUrls : List (Str × Str)) (today cutoff : Str) : SeenRegistry :=
  pruneSeen (appendSeen seen newWikiTitles newObitUrls today) cutoff

/-! ## Diversity-constrained selector (`select_four`, `_era`,
`_diversity_key`) -/

/-- Candidate record, with the fields `select_four` inspects (the remaining
fields of the Python dict are summarised by `title`, which stands for the
identity carried by the record; Python's `p not in selected` compares whole
records, which is structure equality here). -/
structure Candidate where
  title : Str
  description : Str
  birth_year : Str
deriving DecidableEq, Repr

/-- Python `int(s)` on a string: optional sign and a non-empty digit string
after stripping whitespace, `none` on `ValueError`. -/
def pyInt? (s : Str) : Option Int :=
  let digitsToNat : Str → Nat := fun ds =>
    ds.foldl (fun n c => n * 10 + (c.toNat - 48)) 0
  match trimC s with
  | '+' :: ds =>
    if ds ≠ [] ∧ ds.all Char.isDigit then some (digitsToNat ds) else none
  | '-' :: ds =>
    if ds ≠ [] ∧ ds.all Char.isDigit then some (-(digitsToNat ds : Int)) else none
  | ds =>
    if ds ≠ [] ∧ ds.all Char.isDigit then some (digitsToNat ds) else none

/-- `_era(birth_year)` (source lines 1550-1558). -/
def era (birth_year : Str) : Str :=
  match pyInt? birth_year with
  | none => S "unknown"
  | some y =>
    if y < 1700 then S "pre-1700"
    else if y < 1850 then S "1700-1849"
    else if y < 1940 then S "1850-1939"
    else S "modern"

/-- The nationality keyword list of `_diversity_key` (source order). -/
def nationalityKeywords : List Str :=
  [S "american", S "british", S "english", S "scottish", S "irish", S "welsh",
   S "french", S "german", S "italian", S "spanish", S "russian", S "soviet",
   S "chinese", S "japanese", S "indian", S "australian", S "canadian",
   S "argentine", S "brazilian", S "nigerian", S "south african", S "egyptian",
   S "polish", S "dutch", S "swedish", S "norwegian", S "greek", S "turkish",
   S "mexican", S "cuban", S "venezuelan", S "colombian", S "chilean"]

/-- The field keyword map of `_diversity_key` (source dict order). -/
def fieldMap : List (Str × List Str) :=
  [(S "politics", [S "politician", S "president", S "prime minister", S "senator",
                   S "minister", S "statesman", S "diplomat", S "governor", S "chancellor"]),
   (S "military", [S "general", S "admiral", S "commander", S "colonel", S "marshal"]),
   (S "science", [S "scientist", S "physicist", S "chemist", S "biologist",
                  S "mathematician", S "astronomer", S "geologist", S "inventor", S "engineer"]),
   (S "arts", [S "painter", S "sculptor", S "architect", S "artist", S "photographer"]),
   (S "music", [S "composer", S "musician", S "singer", S "pianist", S "conductor"]),
   (S "literature", [S "author", S "writer", S "poet", S "novelist", S "playwright"]),
   (S "royalty", [S "king", S "queen", S "emperor", S "empress", S "prince", S "princess",
                  S "monarch", S "pharaoh", S "tsar", S "tsarina"]),
   (S "sport", [S "athlete", S "footballer", S "boxer", S "cricketer", S "tennis",
                S "cyclist", S "swimmer", S "jockey"]),
   (S "film_tv", [S "actor", S "actress", S "director", S "filmmaker", S "producer"]),
   (S "religion", [S "archbishop", S "bishop", S "theologian", S "pope", S "cardinal"]),
   (S "activism", [S "activist", S "reformer", S "revolutionary", S "dissident"])]

/-- `_diversity_key(candidate)` (source lines 1511-1547):
`"{nationality}_{field}"` with the first matching keyword of each table,
`"other"` when nothing matches. -/
def diversity_key (c : Candidate) : Str :=
  let desc := lowerStr c.description
  let nat := ((nationalityKeywords.find? (fun n => containsSub n desc)).getD (S "other"))
  let fld := ((fieldMap.find? (fun pr => pr.2.any (fun kw => containsSub kw desc))).map
                Prod.fst).getD (S "other")
  nat ++ '_' :: fld

/-- The greedy pass of `select_four` (source lines 1570-1588).  `n` is the
(constant) length of the ranked pool; era counts and used diversity keys
are carried as functions, modelling the Python dict / set. -/
def greedyLoop (n : Nat) : List Candidate → List Candidate → (Str → Nat) →
    (Str → Bool) → List Candidate
  | [], sel, _, _ => sel
  | p :: rest, sel, eraCounts, dkUsed =>
    let e := era p.birth_year
    let dk := diversity_key p
    if eraCounts e ≥ 2 ∧ n > 6 then greedyLoop n rest sel eraCounts dkUsed
    else if dkUsed dk ∧ n > 6 then greedyLoop n rest sel eraCounts dkUsed
    else
      let sel' := sel ++ [p]
      let eraCounts' := fun x => if x = e then eraCounts e + 1 else eraCounts x
      let dkUsed' := fun k => if k = dk then true else dkUsed k
      if sel'.length = 4 then sel' else greedyLoop n rest sel' eraCounts' dkUsed'

/-- The greedy pass started from the empty selection. -/
def greedyPhase (ranked : List Candidate) : List Candidate :=
  greedyLoop ranked.length ranked [] (fun _ => 0) (fun _ => false)

/-- The constraint-relaxation fill pass (source lines 1591-1596): walk the
ranked pool again, appending any candidate not already selected, stopping
at four. -/
def fillLoop : List Candidate → List Candidate → List Candidate
  | [], sel => sel
  | p :: rest, sel =>
    let sel' := if p ∈ sel then sel else sel ++ [p]
    if sel'.length = 4 then sel' else fillLoop rest sel'

/-- `select_four(ranked)` (source lines 1561-1598). -/
def select_four (ranked : List Candidate) : List Candidate :=
  if ranked.length ≤ 4 then ranked
  else
    let selected := greedyPhase ranked
    let selected := if selected.length < 4 then fillLoop ranked selected else selected
    selected.take 4

/-! ## Archive-resolution chain (`_resolve_archive_url`)

The four network steps are modelled at their fetch boundary: each step's
outcome is either `none` (the step's `try` block raised, or — for step 2 —
the availability lookup reported no snapshot) or the data the step's
successful fetch produced, already passed through `_strip_html_tags` /
`_extract_og_description`.  A successful fetch always carries the non-empty
URL it was served from; this is a hypothesis of the theorems below. -/

structure ArchiveOutcomes where
  /-- archive.ph: final URL after redirects, and stripped page text. -/
  step1 : Option (Str × Str)
  /-- Wayback availability + snapshot fetch: snapshot URL and stripped text. -/
  step2 : Option (Str × Str)
  /-- Direct fetch of the original URL: stripped text. -/
  step3 : Option Str
  /-- `og:description` extracted from the partial `<head>` fetch. -/
  step4 : Option Str

/-- State after step 1 of `_resolve_archive_url` (source lines 1121-1132):
the archive.ph result is adopted only when the final URL stayed on
archive.ph. -/
def afterStep1 (o : ArchiveOutcomes) (originalUrl : Str) : Str × Str :=
  match o.step1 with
  | some (finalUrl, text) =>
    if containsSub (S "archive.ph/") finalUrl then (finalUrl, text)
    else (originalUrl, [])
  | none => (originalUrl, [])

/-- State after step 2 (source lines 1137-1155): the snapshot text is
adopted only when strictly longer than the text collected so far; skipped
entirely once 500 characters were already collected. -/
def afterStep2 (o : ArchiveOutcomes) (originalUrl : Str) : Str × Str :=
  let st := afterStep1 o originalUrl
  if st.2.length ≥ 500 then st
  else
    match o.step2 with
    | some (wbUrl, wbText) =>
      if wbText.length > st.2.length then (wbUrl, wbText) else st
    | none => st

/-- State after step 3 (source lines 1160-1170): direct fetch of the
original URL, adopted only when strictly longer. -/
def afterStep3 (o : ArchiveOutcomes) (originalUrl : Str) : Str × Str :=
  let st := afterStep2 o originalUrl
  if st.2.length ≥ 500 then st
  else
    match o.step3 with
    | some directText =>
      if directText.length > st.2.length then (originalUrl, directText) else st
    | none => st

/-- `_resolve_archive_url(original_url)` (source lines 1109-1190): after
step 3, a non-empty `og:description` is prepended to whatever partial text
was collected and the URL reverts to the original. -/
def resolve_archive_url (o : ArchiveOutcomes) (originalUrl : Str) : Str × Str :=
  let st := afterStep3 o originalUrl
  if st.2.length ≥ 500 then st
  else
    match o.step4 with
    | some ogDesc =>
      if ogDesc ≠ [] then
        (originalUrl, ogDesc ++ (if st.2 ≠ [] then ' ' :: st.2 else []))
      else st
    | none => st

/-! ## Spec-side definitions for refinement claims -/

/-- Modelled from the spec: the four header conditions of §4.2 / claim C5 —
(a) the first line is shorter than the 80-character cap, (b) it does not end
in sentence-terminal punctuation (the classifier's set `.!?,;`), (c) it is
not immediately preceded by running text in the same paragraph (vacuously
true of a paragraph's first line), (d) the paragraph is exactly one line.
Stated over the same stripped-paragraph representation as `is_header`. -/
def specHeaderConditions (para : Str) : Bool :=
  decide ((firstLineOf para).length < 80) &&
  !(endsInPunct (firstLineOf para)) &&
  true &&
  decide ((pySplitlines para).length = 1)

/-- The paragraph list of a reassembled document, for the idempotence claim
C6: each section contributes its header (when present) and its body. -/
def reconstructPieces (secs : List Section) : List Str :=
  secs.flatMap (fun s => if s.header = [] then [s.text] else [s.header, s.text])

/-- The paragraph list of a list of sections all of which carry headers. -/
def sectionParas (secs : List Section) : List Str :=
  secs.flatMap (fun s => [s.header, s.text])

/-- Reassembling the split sections into a document, for the idempotence
claim C6. -/
def reconstructDoc (secs : List Section) : Str := joinNN (reconstructPieces secs)

/-- The header set of a split. -/
def headersOf (secs : List Section) : List Str := secs.map Section.header

/-- Well-formedness of a section body as a reconstruction paragraph: it is
non-blank, already stripped, free of double newlines, does not end in a
newline, and — the condition the C6 counterexample shows can fail — is not
itself header-shaped. -/
def bodyWF (t : Str) : Prop :=
  t ≠ [] ∧ trimC t = t ∧ hasDoubleNl t = false ∧ t.getLast? ≠ some '\n' ∧
  is_header t = false

/-- Well-formedness of a section header as a reconstruction paragraph: a
stripped single line that passes the header test. -/
def headerWF (h : Str) : Prop :=
  trimC h = h ∧ '\n' ∉ h ∧ hasDoubleNl h = false ∧ h.getLast? ≠ some '\n' ∧
  is_header h = true

/-- Well-formedness of a split result, as produced by `_split_sections`:
every body and (non-empty) header paragraph is well formed, multipliers
agree with `_section_score`, and only the leading section may carry the
empty header. -/
def sectWF (secs : List Section) : Prop :=
  (∀ s ∈ secs, bodyWF s.text ∧ (s.header = [] ∨ headerWF s.header) ∧
    s.multiplier = section_score s.header) ∧
  (∀ s ∈ secs.tail, s.header ≠ [])

instance (t : Str) : Decidable (bodyWF t) := by
  unfold bodyWF
  infer_instance

instance (h : Str) : Decidable (headerWF h) := by
  unfold headerWF
  infer_instance

instance (secs : List Section) : Decidable (sectWF secs) := by
  unfold sectWF
  infer_instance

/-- Number of selected candidates falling in one era bucket. -/
def countEra (sel : List Candidate) (e : Str) : Nat :=
  (sel.filter (fun p => decide (era p.birth_year = e))).length

/-! ## Concrete inputs used by individual claims -/

/-- A one-sentence text of `n` one-letter words ending in a period. -/
def c1Sent (n : Nat) : Str := 'B' :: (List.replicate (n - 1) [' ', 'b']).flatten ++ ['.']

/-- A section body of five 40-word sentences (exactly 200 words). -/
def c1Sec : Str := joinSp (List.replicate 5 (c1Sent 40))

/-- Document for the C1 counterexample: two sections of exactly 200 words
each, then a section whose single sentence has 101 words.  The third
snippet's window admits the 101-word sentence against a remaining budget of
100 because a window always admits its first sentence, so the total reaches
501 words. -/
def c1Doc : Str := S "Aa\n\n" ++ c1Sec ++ S "\n\nAb\n\n" ++ c1Sec ++ S "\n\nAc\n\n" ++ c1Sent 101

/-- Document for the C2 witness: one normal section with one 25-word
sentence, so the section phase produces a snippet. -/
def c2Doc : Str :=
  S "Aa\n\nB b b b b b b b b b b b b b b b b b b b b b b b b."

/-- Pool for the C3 counterexample: seven distinct candidates sharing one
diversity key and one era. -/
def c3CapsPool : List Candidate :=
  (List.range 7).map (fun i =>
    ⟨[Char.ofNat (65 + i)], S "american scientist", S "190" ++ [Char.ofNat (48 + i)]⟩)

/-- Pool for the C3 witness: seven distinct candidates with distinct
diversity keys and spread eras, so the greedy pass fills all four slots. -/
def c3GreedyPool : List Candidate :=
  [⟨S "a", S "american scientist", S "1900"⟩, ⟨S "b", S "british painter", S "1910"⟩,
   ⟨S "c", S "french composer", S "1600"⟩, ⟨S "d", S "german author", S "1750"⟩,
   ⟨S "e", S "italian singer", S "1955"⟩, ⟨S "f", S "russian poet", S "1800"⟩,
   ⟨S "g", S "japanese actor", S "1920"⟩]

/-- Pool for the C4 counterexample: seven equal candidate records. -/
def c4DupPool : List Candidate :=
  List.replicate 7 ⟨S "X", S "american scientist", S "1900"⟩

/-- Pool for the C4 witness: seven pairwise distinct candidates. -/
def c4DistinctPool : List Candidate :=
  (List.range 7).map (fun i => ⟨[Char.ofNat (97 + i)], S "american scientist", S "1900"⟩)

/-- Document for the C6 counterexample: one header, then a body made of two
paragraphs — one kept as body because it ends in a period, one kept as body
because it starts with a digit.  Their space-join is header-shaped, so the
re-split of the reconstruction reads the body as a header and loses the
original one. -/
def c6BadDoc : Str := S "Intro\n\nHello there everyone.\n\n2 fast"

/-- Document for the C6 witness: a preferred section whose body ends in a
period and hence survives reconstruction. -/
def c6GoodDoc : Str := S "Early life\n\nHe was born in a small town, quite happily."

/-! # Theorems -/

/-! ## C5 — the header classification test -/

/-- Shuffling of the Boolean conjuncts relating the classifier's test to
the spec's four conditions plus the two extra ones. -/
theorem boolShuffle (a b c d e : Bool) :
    (a && b && c && d && e) = ((b && c && true && e) && a && d) := by
  cases a <;> cases b <;> cases c <;> cases d <;> cases e <;> rfl

/-- C5 counterexample: the paragraph consisting of the single line `1984`
satisfies all four spec conditions — first line shorter than 80, no
terminal punctuation, no preceding text, exactly one line — yet
`_split_sections` does not treat it as a header, because the code also
requires the first line not to start with a digit. -/
theorem C5_counterexample_digit_header :
    specHeaderConditions (S "1984") = true ∧ is_header (S "1984") = false := by
  decide

/-- C5 amended: a paragraph is treated as a section header if and only if
the spec's four conditions hold AND its first line is non-blank and does
not start with a decimal digit. -/
theorem C5_header_iff_conditions (para : Str) :
    is_header para =
      (specHeaderConditions para &&
       decide (0 < (firstLineOf para).length) &&
       !((firstLineOf para).headD ' ').isDigit) := by
  simp only [is_header, specHeaderConditions]
  exact boolShuffle _ _ _ _ _

/-! ## C8 — short texts score zero -/

/-- C8: for every pattern-hit oracle and every text shorter than the
400-character floor (including the empty text), `score_biography` returns
zero primary and secondary counts, a zero total, and no matched signals. -/
theorem C8_short_text_scores_zero (patHits : Str → Str → Nat) (extract : Str)
    (h : extract.length < 400) :
    score_biography patHits extract = ⟨0, 0, 0, []⟩ := by
  unfold score_biography
  rw [if_pos (Or.inr h)]

/-- C8 witness: the empty text is below the floor and scores zero. -/
theorem C8_short_text_scores_zero_witness :
    (S "").length < 400 ∧ score_biography (fun _ _ => 0) (S "") = ⟨0, 0, 0, []⟩ :=
  ⟨by decide, C8_short_text_scores_zero (fun _ _ => 0) (S "") (by decide)⟩

/-! ## C9 — pruning the seen-items registry is idempotent -/

/-- C9: pruning a registry against a cutoff twice yields exactly the result
of pruning it once, for every registry and cutoff. -/
theorem C9_prune_idempotent (seen : SeenRegistry) (cutoff : Str) :
    pruneSeen (pruneSeen seen cutoff) cutoff = pruneSeen seen cutoff := by
  simp [pruneSeen, List.filter_filter]

/-! ## C7 — the archive chain never fails -/

/-- A URL that passed the archive.ph containment check is non-empty. -/
theorem containsArchive_ne_nil {fu : Str}
    (h : containsSub (S "archive.ph/") fu = true) : fu ≠ [] := by
  intro he
  subst he
  revert h
  decide

/-- C7: for every non-empty original URL and every combination of step
outcomes (with successful fetches reporting the non-empty URL they were
served from), the chain returns a non-empty resolved URL, and the returned
text is at least as long as the text collected after each earlier step —
the best text collected across the attempted steps; an empty text is a
valid return. -/
theorem C7_resolution_never_fails (o : ArchiveOutcomes) (url : Str)
    (hurl : url ≠ [])
    (h2 : ∀ u t, o.step2 = some (u, t) → u ≠ []) :
    (resolve_archive_url o url).1 ≠ [] ∧
    (afterStep3 o url).2.length ≤ (resolve_archive_url o url).2.length ∧
    (afterStep2 o url).2.length ≤ (afterStep3 o url).2.length ∧
    (afterStep1 o url).2.length ≤ (afterStep2 o url).2.length := by
  obtain ⟨s1, s2, s3, s4⟩ := o
  have h1ne : (afterStep1 ⟨s1, s2, s3, s4⟩ url).1 ≠ [] := by
    rcases s1 with _ | ⟨fu, t⟩
    · simpa [afterStep1] using hurl
    · by_cases hc : containsSub (S "archive.ph/") fu = true
      · simpa [afterStep1, hc] using containsArchive_ne_nil hc
      · simpa [afterStep1, hc] using hurl
  have h2ne : (afterStep2 ⟨s1, s2, s3, s4⟩ url).1 ≠ [] := by
    by_cases hb : (afterStep1 ⟨s1, s2, s3, s4⟩ url).2.length ≥ 500
    · simpa [afterStep2, hb] using h1ne
    · rcases s2 with _ | ⟨wu, wt⟩
      · simpa [afterStep2, hb] using h1ne
      · by_cases hlen : wt.length > (afterStep1 ⟨s1, some (wu, wt), s3, s4⟩ url).2.length
        · simpa [afterStep2, hb, hlen] using h2 wu wt rfl
        · simpa [afterStep2, hb, hlen] using h1ne
  have h3ne : (afterStep3 ⟨s1, s2, s3, s4⟩ url).1 ≠ [] := by
    by_cases hb : (afterStep2 ⟨s1, s2, s3, s4⟩ url).2.length ≥ 500
    · simpa [afterStep3, hb] using h2ne
    · rcases s3 with _ | dt
      · simpa [afterStep3, hb] using h2ne
      · by_cases hlen : dt.length > (afterStep2 ⟨s1, s2, some dt, s4⟩ url).2.length
        · simpa [afterStep3, hb, hlen] using hurl
        · simpa [afterStep3, hb, hlen] using h2ne
  refine ⟨?_, ?_, ?_, ?_⟩
  · by_cases hb : (afterStep3 ⟨s1, s2, s3, s4⟩ url).2.length ≥ 500
    · simpa [resolve_archive_url, hb] using h3ne
    · rcases s4 with _ | og
      · simpa [resolve_archive_url, hb] using h3ne
      · by_cases hne : og = []
        · simpa [resolve_archive_url, hb, hne] using h3ne
        · simpa [resolve_archive_url, hb, hne] using hurl
  · by_cases hb : (afterStep3 ⟨s1, s2, s3, s4⟩ url).2.length ≥ 500
    · simp [resolve_archive_url, hb]
    · rcases s4 with _ | og
      · simp [resolve_archive_url, hb]
      · by_cases hne : og = []
        · simp [resolve_archive_url, hb, hne]
        · by_cases hst : (afterStep3 ⟨s1, s2, s3, some og⟩ url).2 = []
          · simp [resolve_archive_url, hb, hne, hst]
          · simp [resolve_archive_url, hb, hne, hst, List.length_append]
            omega
  · by_cases hb : (afterStep2 ⟨s1, s2, s3, s4⟩ url).2.length ≥ 500
    · simp [afterStep3, hb]
    · rcases s3 with _ | dt
      · simp [afterStep3, hb]
      · by_cases hlen : dt.length > (afterStep2 ⟨s1, s2, some dt, s4⟩ url).2.length
        · simpa [afterStep3, hb, hlen] using Nat.le_of_lt hlen
        · simp [afterStep3, hb, hlen]
  · by_cases hb : (afterStep1 ⟨s1, s2, s3, s4⟩ url).2.length ≥ 500
    · simp [afterStep2, hb]
    · rcases s2 with _ | ⟨wu, wt⟩
      · simp [afterStep2, hb]
      · by_cases hlen : wt.length > (afterStep1 ⟨s1, some (wu, wt), s3, s4⟩ url).2.length
        · simpa [afterStep2, hb, hlen] using Nat.le_of_lt hlen
        · simp [afterStep2, hb, hlen]

/-- C7 witness: with every step failing, the chain returns the original URL
and the empty text. -/
theorem C7_resolution_never_fails_witness :
    (resolve_archive_url ⟨none, none, none, none⟩ (S "https://x")).1 ≠ [] ∧
    (afterStep3 ⟨none, none, none, none⟩ (S "https://x")).2.length ≤
      (resolve_archive_url ⟨none, none, none, none⟩ (S "https://x")).2.length ∧
    (afterStep2 ⟨none, none, none, none⟩ (S "https://x")).2.length ≤
      (afterStep3 ⟨none, none, none, none⟩ (S "https://x")).2.length ∧
    (afterStep1 ⟨none, none, none, none⟩ (S "https://x")).2.length ≤
      (afterStep2 ⟨none, none, none, none⟩ (S "https://x")).2.length :=
  C7_resolution_never_fails ⟨none, none, none, none⟩ (S "https://x")
    (by decide) (by intro u t h; cases h)

/-! ## C10 — the extractor always returns a snippet -/

/-- C10: for every pair of oracles and every document, `extract_anecdote`
returns a non-empty list; when the section phase produces nothing, the
result is exactly one fallback snippet, whose label is the default
`Life & Character` label. -/
theorem C10_extractor_never_empty (hits : Str → Nat) (cult : Str → Bool)
    (extract : Str) :
    extract_anecdote hits cult extract ≠ [] ∧
    (fallbackSnippet cult extract).label = lifeCharLabel ∧
    (sectionSnippets hits cult extract = [] →
      extract_anecdote hits cult extract = [fallbackSnippet cult extract]) := by
  by_cases h : sectionSnippets hits cult extract = []
  · refine ⟨?_, rfl, fun _ => ?_⟩ <;> simp [extract_anecdote, h]
  · exact ⟨by simp [extract_anecdote, h], rfl, fun hc => absurd hc h⟩

/-- C10 witness: on the empty document the section phase is empty and the
extractor returns the single fallback snippet. -/
theorem C10_extractor_never_empty_witness :
    extract_anecdote (fun _ => 0) (fun _ => false) [] =
      [fallbackSnippet (fun _ => false) []] :=
  (C10_extractor_never_empty (fun _ => 0) (fun _ => false) []).2.2 (by decide)

/-! ## Word-count lemmas shared by C1 and C2 -/

/-- Prepending a space to a string leaves a word count independent of the
in-word flag. -/
theorem wcAux_space_cons (b : Str) (inW : Bool) :
    wcAux inW (' ' :: b) = wcAux false b := by
  simp [wcAux, show (' ').isWhitespace = true from rfl]

/-- Splitting on whitespace distributes over a space-separated join. -/
theorem wcAux_append_space (a b : Str) :
    ∀ inW, wcAux inW (a ++ ' ' :: b) = wcAux inW a + wcAux false b := by
  induction a with
  | nil =>
    intro inW
    simp [wcAux_space_cons b inW, wcAux]
  | cons c a ih =>
    intro inW
    by_cases h : c.isWhitespace = true
    · simp [wcAux, h, ih]
    · simp [wcAux, h, ih]
      omega

/-- The word count of a space-join is the sum of the word counts. -/
theorem wordCount_joinSp (l : List Str) :
    wordCount (joinSp l) = (l.map wordCount).sum := by
  induction l with
  | nil => rfl
  | cons s rest ih =>
    cases rest with
    | nil => simp [joinSp, wordCount]
    | cons t rest' =>
      show wordCount (s ++ ' ' :: joinSp (t :: rest')) = _
      simp only [wordCount] at ih ⊢
      rw [wcAux_append_space, ih]
      simp [wordCount]

/-- The window loop's running count stays the sum of the window's word
counts. -/
theorem buildWindowAux_sum (budget : Nat) :
    ∀ sents w wc, wc = (w.map wordCount).sum →
      (buildWindowAux budget sents w wc).2 =
        ((buildWindowAux budget sents w wc).1.map wordCount).sum := by
  intro sents
  induction sents with
  | nil => intro w wc h; simpa [buildWindowAux] using h
  | cons s rest ih =>
    intro w wc h
    by_cases hstop : wc + wordCount s > budget ∧ w ≠ []
    · simpa [buildWindowAux, hstop] using h
    · simpa [buildWindowAux, hstop] using ih (w ++ [s]) (wc + wordCount s) (by simp [h])

/-- The window's total stays below `max budget M` when every sentence has at
most `M` words: only a window's first sentence may overflow the budget, and
it is bounded by `M`. -/
theorem buildWindowAux_le (budget M : Nat) :
    ∀ sents w wc, (∀ s ∈ sents, wordCount s ≤ M) →
      wc ≤ max budget M → (w = [] → wc = 0) →
      (buildWindowAux budget sents w wc).2 ≤ max budget M := by
  intro sents
  induction sents with
  | nil => intro w wc _ hwc _; simpa [buildWindowAux] using hwc
  | cons s rest ih =>
    intro w wc hM hwc hemp
    by_cases hstop : wc + wordCount s > budget ∧ w ≠ []
    · simpa [buildWindowAux, hstop] using hwc
    · have hs : wordCount s ≤ M := hM s (List.mem_cons_self s rest)
      have hM' : ∀ t ∈ rest, wordCount t ≤ M := fun t ht => hM t (List.mem_cons_of_mem s ht)
      rcases Decidable.not_and_iff_or_not.mp hstop with hle | hwnil
      · have : wc + wordCount s ≤ budget := by omega
        simpa [buildWindowAux, hstop] using
          ih (w ++ [s]) (wc + wordCount s) hM' (by omega) (by simp)
      · have hw : w = [] := by
          by_contra hne
          exact hwnil hne
        have : wc = 0 := hemp hw
        simpa [buildWindowAux, hstop] using
          ih (w ++ [s]) (wc + wordCount s) hM' (by omega) (by simp)

/-- The fallback window never exceeds 400 words, and its count is the sum
of its sentences' counts. -/
theorem fallbackWindowAux_le :
    ∀ sents w wc, wc = (w.map wordCount).sum → wc ≤ 400 →
      ((fallbackWindowAux sents w wc).1.map wordCount).sum ≤ 400 := by
  intro sents
  induction sents with
  | nil => intro w wc h hle; simpa [fallbackWindowAux, ← h] using hle
  | cons s rest ih =>
    intro w wc h hle
    by_cases hstop : wc + wordCount s > 400
    · simpa [fallbackWindowAux, hstop, ← h] using hle
    · simpa [fallbackWindowAux, hstop] using
        ih (w ++ [s]) (wc + wordCount s) (by simp [h]) (by omega)

/-- Invariant of the snippet loop for C1: starting from snippets summing to
`total`, the final word sum is bounded by `max total (499 + M)` whenever
every candidate sentence of the remaining pool has at most `M` words. -/
theorem snippetLoop_sum_le (hits : Str → Nat) (cult : Str → Bool) (M : Nat)
    (hM : 1 ≤ M) :
    ∀ pool snips total used,
      (∀ p ∈ pool, ∀ s ∈ candSentences cult p.2, wordCount s ≤ M) →
      sumSnippetWords snips = total →
      sumSnippetWords (snippetLoop hits cult pool snips total used) ≤
        max total (499 + M) := by
  intro pool
  induction pool with
  | nil =>
    intro snips total used _ hsum
    simp only [snippetLoop, hsum]
    exact Nat.le_max_left total (499 + M)
  | cons p rest ih =>
    obtain ⟨header, text⟩ := p
    intro snips total used hpool hsum
    have hhd : ∀ s ∈ candSentences cult text, wordCount s ≤ M :=
      hpool (header, text) (List.mem_cons_self _ _)
    have hrest : ∀ q ∈ rest, ∀ s ∈ candSentences cult q.2, wordCount s ≤ M :=
      fun q hq => hpool q (List.mem_cons_of_mem _ hq)
    by_cases hbrk : snips.length ≥ 3 ∨ total ≥ 500
    · simp only [snippetLoop, if_pos hbrk, hsum]
      exact Nat.le_max_left total (499 + M)
    · by_cases hempty : candSentences cult text = []
      · simpa [snippetLoop, hbrk, hempty] using ih snips total used hrest hsum
      · set sents := candSentences cult text with hsents
        set budget := min 200 (500 - total) with hbudget
        set bw := buildWindow budget (sents.drop (argmaxIdx hits sents - 1)) with hbw
        by_cases hthin : bw.2 < 20
        · simpa [snippetLoop, hbrk, hempty, ← hsents, ← hbudget, ← hbw, hthin] using
            ih snips total used hrest hsum
        · have hdropM : ∀ s ∈ sents.drop (argmaxIdx hits sents - 1), wordCount s ≤ M :=
            fun s hs => hhd s (List.drop_subset _ _ hs)
          have hbw2 : bw.2 ≤ max budget M := by
            rw [hbw]
            exact buildWindowAux_le budget M _ [] 0 hdropM (by omega) (fun _ => rfl)
          have hbwsum : bw.2 = (bw.1.map wordCount).sum := by
            rw [hbw]
            exact buildWindowAux_sum budget _ [] 0 rfl
          have htot : total ≤ 499 := by omega
          have hsum0 : (snips.map (fun s => wordCount s.text)).sum = total := hsum
          have hsum' :
              ∀ lbl, sumSnippetWords (snips ++ [⟨lbl, joinSp bw.1⟩]) = total + bw.2 := by
            intro lbl
            simp [sumSnippetWords, wordCount_joinSp, ← hbwsum, hsum0]
          have hrec := fun lbl used' =>
            ih (snips ++ [⟨lbl, joinSp bw.1⟩]) (total + bw.2) used' hrest (hsum' lbl)
          have hbound : total + bw.2 ≤ 499 + M := by
            have : budget = min 200 (500 - total) := hbudget
            omega
          have : ∀ lbl used',
              sumSnippetWords (snippetLoop hits cult rest
                (snips ++ [⟨lbl, joinSp bw.1⟩]) (total + bw.2) used') ≤
              max total (499 + M) := by
            intro lbl used'
            have h1 := hrec lbl used'
            omega
          simpa [snippetLoop, hbrk, hempty, ← hsents, ← hbudget, ← hbw, hthin] using
            this _ _

/-! ## C1 — the 500-word total budget -/

/-- C1 counterexample: on `c1Doc` the extractor returns snippets of
200 + 200 + 101 = 501 words, exceeding the 500-word total budget, because a
window always admits its first sentence even when it overflows the
remaining budget. -/
theorem C1_counterexample_budget_overrun :
    sumSnippetWords (extract_anecdote (fun _ => 0) (fun _ => false) c1Doc) = 501 := by
  decide

/-- C1 amended: when every candidate sentence of the document has at most
`M ≥ 1` words, the sum of word counts across all returned snippets is at
most `499 + M` — the 500-word budget can be exceeded only by the overshoot
of a single over-budget sentence opening a window. -/
theorem C1_amended_budget_bound (hits : Str → Nat) (cult : Str → Bool)
    (extract : Str) (M : Nat) (hM : 1 ≤ M)
    (hbound : ∀ p ∈ sectionPool extract, ∀ s ∈ candSentences cult p.2,
      wordCount s ≤ M) :
    sumSnippetWords (extract_anecdote hits cult extract) ≤ 499 + M := by
  by_cases h : sectionSnippets hits cult extract = []
  · have hfb : ((fallbackWindowAux (candSentences cult extract) [] 0).1.map
        wordCount).sum ≤ 400 :=
      fallbackWindowAux_le (candSentences cult extract) [] 0 rfl (by omega)
    have : sumSnippetWords [fallbackSnippet cult extract] ≤ 400 := by
      simpa [sumSnippetWords, fallbackSnippet, wordCount_joinSp] using hfb
    calc sumSnippetWords (extract_anecdote hits cult extract)
        = sumSnippetWords [fallbackSnippet cult extract] := by
          simp [extract_anecdote, h]
      _ ≤ 400 := this
      _ ≤ 499 + M := by omega
  · have hle := snippetLoop_sum_le hits cult M hM (sectionPool extract) [] 0
      (fun _ => 0) hbound rfl
    have : sumSnippetWords (sectionSnippets hits cult extract) ≤ 499 + M := by
      simpa [sectionSnippets] using hle
    simpa [extract_anecdote, h] using this

/-- C1 witness: on the empty document every hypothesis holds with `M = 1`
and the bound `499 + 1 = 500` is met. -/
theorem C1_amended_budget_bound_witness :
    sumSnippetWords (extract_anecdote (fun _ => 0) (fun _ => false) []) ≤ 500 :=
  C1_amended_budget_bound (fun _ => 0) (fun _ => false) [] 1 (by decide) (by decide)

/-! ## C2 — the 20-word minimum floor -/

/-- C2 counterexample: on the empty document the extractor returns exactly
one fallback snippet whose text has zero words — far below the 20-word
floor the claim asserts for every returned snippet. -/
theorem C2_counterexample_fallback_below_floor :
    (extract_anecdote (fun _ => 0) (fun _ => false) []).map
      (fun s => wordCount s.text) = [0] := by
  decide

/-- Invariant of the snippet loop for C2: every snippet the section loop
appends carries at least 20 words. -/
theorem snippetLoop_min_words (hits : Str → Nat) (cult : Str → Bool) :
    ∀ pool snips total used,
      (∀ s ∈ snips, 20 ≤ wordCount s.text) →
      ∀ s ∈ snippetLoop hits cult pool snips total used, 20 ≤ wordCount s.text := by
  intro pool
  induction pool with
  | nil =>
    intro snips total used hsn
    simpa [snippetLoop] using hsn
  | cons p rest ih =>
    obtain ⟨header, text⟩ := p
    intro snips total used hsn
    by_cases hbrk : snips.length ≥ 3 ∨ total ≥ 500
    · simpa [snippetLoop, hbrk] using hsn
    · by_cases hempty : candSentences cult text = []
      · simpa [snippetLoop, hbrk, hempty] using ih snips total used hsn
      · set sents := candSentences cult text with hsents
        set budget := min 200 (500 - total) with hbudget
        set bw := buildWindow budget (sents.drop (argmaxIdx hits sents - 1)) with hbw
        by_cases hthin : bw.2 < 20
        · simpa [snippetLoop, hbrk, hempty, ← hsents, ← hbudget, ← hbw, hthin] using
            ih snips total used hsn
        · have hbwsum : bw.2 = (bw.1.map wordCount).sum := by
            rw [hbw]
            exact buildWindowAux_sum budget _ [] 0 rfl
          have hnew : ∀ lbl, ∀ s ∈ snips ++ [Snippet.mk lbl (joinSp bw.1)],
              20 ≤ wordCount s.text := by
            intro lbl s hs
            rcases List.mem_append.mp hs with h | h
            · exact hsn s h
            · rcases List.mem_singleton.mp h with rfl
              simp only [wordCount_joinSp, ← hbwsum]
              omega
          have := fun lbl used' =>
            ih (snips ++ [Snippet.mk lbl (joinSp bw.1)]) (total + bw.2) used' (hnew lbl)
          simpa [snippetLoop, hbrk, hempty, ← hsents, ← hbudget, ← hbw, hthin] using
            this _ _

/-- C2 amended: whenever the section phase yields any snippet — i.e. on
every run that does not fall through to the fallback scan — all returned
snippets carry at least 20 words; candidate windows below the floor are
discarded.  (The fallback snippet is exempt, as the counterexample shows.) -/
theorem C2_amended_min_floor (hits : Str → Nat) (cult : Str → Bool)
    (extract : Str) (hne : sectionSnippets hits cult extract ≠ []) :
    ∀ s ∈ extract_anecdote hits cult extract, 20 ≤ wordCount s.text := by
  have : extract_anecdote hits cult extract = sectionSnippets hits cult extract := by
    simp [extract_anecdote, hne]
  rw [this]
  exact snippetLoop_min_words hits cult (sectionPool extract) [] 0 (fun _ => 0)
    (by simp)

/-- C2 witness: on `c2Doc` the section phase is non-empty and the first
returned snippet meets the floor. -/
theorem C2_amended_min_floor_witness :
    20 ≤ wordCount (((extract_anecdote (fun _ => 0) (fun _ => false) c2Doc).headD
      ⟨[], []⟩).text) :=
  C2_amended_min_floor (fun _ => 0) (fun _ => false) c2Doc (by decide) _ (by decide)

/-! ## C4 — the selector's output size -/

/-- The greedy pass never grows the selection past four. -/
theorem greedyLoop_length_le (n : Nat) :
    ∀ l sel ec dk, sel.length < 4 → (greedyLoop n l sel ec dk).length ≤ 4 := by
  intro l
  induction l with
  | nil => intro sel ec dk h; simpa [greedyLoop] using Nat.le_of_lt h
  | cons p rest ih =>
    intro sel ec dk h
    simp only [greedyLoop]
    split
    · exact ih sel ec dk h
    · split
      · exact ih sel ec dk h
      · split
        · simp_all
        · refine ih _ _ _ ?_
          rename_i hlen
          simp only [List.length_append, List.length_singleton] at hlen ⊢
          omega

/-- The fill pass never grows the selection past four either. -/
theorem fillLoop_length_le :
    ∀ l sel, sel.length < 4 → (fillLoop l sel).length ≤ 4 := by
  intro l
  induction l with
  | nil => intro sel h; simpa [fillLoop] using Nat.le_of_lt h
  | cons p rest ih =>
    intro sel h
    simp only [fillLoop]
    by_cases hmem : p ∈ sel
    · simp only [hmem, if_true]
      split
      · omega
      · exact ih sel h
    · simp only [hmem, if_false]
      split
      · simp_all
      · refine ih _ ?_
        rename_i hlen
        simp only [List.length_append, List.length_singleton] at hlen ⊢
        omega

/-- The fill pass keeps everything already selected. -/
theorem fillLoop_subset_self : ∀ l sel, sel ⊆ fillLoop l sel := by
  intro l
  induction l with
  | nil => intro sel; simp [fillLoop]
  | cons p rest ih =>
    intro sel
    simp only [fillLoop]
    by_cases hmem : p ∈ sel
    · simp only [hmem, if_true]
      split
      · exact fun x hx => hx
      · exact ih sel
    · simp only [hmem, if_false]
      split
      · exact fun x hx => List.mem_append_left _ hx
      · exact fun x hx => ih (sel ++ [p]) (List.mem_append_left _ hx)

/-- After the fill pass either the selection is full or it has absorbed the
whole pool. -/
theorem fillLoop_full_or_all :
    ∀ l sel, (fillLoop l sel).length = 4 ∨ ∀ p ∈ l, p ∈ fillLoop l sel := by
  intro l
  induction l with
  | nil => intro sel; right; simp
  | cons p rest ih =>
    intro sel
    simp only [fillLoop]
    by_cases hmem : p ∈ sel
    · simp only [hmem, if_true]
      split
      · left; assumption
      · rcases ih sel with h4 | hall
        · left; exact h4
        · right
          intro q hq
          rcases List.mem_cons.mp hq with rfl | hq'
          · exact fillLoop_subset_self rest sel hmem
          · exact hall q hq'
    · simp only [hmem, if_false]
      split
      · left; assumption
      · rcases ih (sel ++ [p]) with h4 | hall
        · left; exact h4
        · right
          intro q hq
          rcases List.mem_cons.mp hq with heq | hq'
          · subst heq
            exact fillLoop_subset_self rest (sel ++ [q])
              (List.mem_append_right _ (List.mem_singleton_self _))
          · exact hall q hq'

/-- C4 counterexample: a ranked pool of seven equal candidate records makes
`select_four` return a single candidate — the greedy pass admits one copy,
rejects the rest on the repeated diversity key, and the fill pass skips
every copy as already selected — so the output size is 1, not
`min(4, 7) = 4`. -/
theorem C4_counterexample_duplicates :
    (select_four c4DupPool).length = 1 ∧ min 4 c4DupPool.length = 4 := by
  decide

/-- C4 amended: for every ranked pool of pairwise-distinct candidates,
`select_four` returns exactly `min 4 poolSize` candidates; in particular a
pool of at most four is returned whole, and constraint relaxation never
leaves the output short. -/
theorem C4_selector_output_size (ranked : List Candidate)
    (hnd : ranked.Nodup) :
    (select_four ranked).length = min 4 ranked.length := by
  unfold select_four
  by_cases hle : ranked.length ≤ 4
  · simp only [hle, if_true]
    omega
  · simp only [hle, if_false]
    have hg : (greedyPhase ranked).length ≤ 4 :=
      greedyLoop_length_le ranked.length ranked [] (fun _ => 0) (fun _ => false)
        (by simp)
    by_cases hfull : (greedyPhase ranked).length < 4
    · simp only [hfull, if_true]
      rcases fillLoop_full_or_all ranked (greedyPhase ranked) with h4 | hall
      · simp [List.length_take, h4]
        omega
      · exfalso
        have hsub : ranked ⊆ fillLoop ranked (greedyPhase ranked) := hall
        have hlen := (List.subperm_of_subset hnd hsub).length_le
        have hfl : (fillLoop ranked (greedyPhase ranked)).length ≤ 4 :=
          fillLoop_length_le ranked (greedyPhase ranked) hfull
        omega
    · simp only [hfull, if_false]
      simp [List.length_take]
      omega

/-- C4 witness: seven distinct candidates yield exactly four selections. -/
theorem C4_selector_output_size_witness :
    (select_four c4DistinctPool).length = min 4 c4DistinctPool.length :=
  C4_selector_output_size c4DistinctPool (by decide)

/-! ## C3 — the diversity caps -/

/-- Invariant of the greedy pass when the caps are active (`n > 6`): if the
carried era counts and key set agree with the selection so far and the
selection satisfies both caps, the final selection does too. -/
theorem greedyLoop_caps (n : Nat) (h6 : n > 6) :
    ∀ l sel ec dk,
      (∀ e, ec e = countEra sel e) →
      (∀ k, dk k = decide (k ∈ sel.map diversity_key)) →
      (∀ e, countEra sel e ≤ 2) →
      (sel.map diversity_key).Nodup →
      (∀ e, countEra (greedyLoop n l sel ec dk) e ≤ 2) ∧
      ((greedyLoop n l sel ec dk).map diversity_key).Nodup := by
  intro l
  induction l with
  | nil =>
    intro sel ec dk _ _ hcap hnd
    exact ⟨by simpa [greedyLoop] using hcap, by simpa [greedyLoop] using hnd⟩
  | cons p rest ih =>
    intro sel ec dk hec hdk hcap hnd
    by_cases hskip1 : ec (era p.birth_year) ≥ 2 ∧ n > 6
    · simpa [greedyLoop, hskip1] using ih sel ec dk hec hdk hcap hnd
    · by_cases hskip2 : dk (diversity_key p) = true ∧ n > 6
      · simpa [greedyLoop, hskip1, hskip2] using ih sel ec dk hec hdk hcap hnd
      · have hecnew : ec (era p.birth_year) ≤ 1 := by
          rcases Decidable.not_and_iff_or_not.mp hskip1 with h | h
          · omega
          · exact absurd h6 h
        have hdknew : diversity_key p ∉ sel.map diversity_key := by
          rcases Decidable.not_and_iff_or_not.mp hskip2 with h | h
          · intro hmem
            apply h
            rw [hdk]
            simpa using hmem
          · exact absurd h6 h
        have hcap' : ∀ e, countEra (sel ++ [p]) e ≤ 2 := by
          intro e
          by_cases he : era p.birth_year = e
          · have heq : countEra (sel ++ [p]) e = countEra sel e + 1 := by
              simp [countEra, List.filter_append, he]
            have h1 : ec e ≤ 1 := he ▸ hecnew
            rw [hec e] at h1
            omega
          · have heq : countEra (sel ++ [p]) e = countEra sel e := by
              simp [countEra, List.filter_append, he]
            rw [heq]
            exact hcap e
        have hnd' : ((sel ++ [p]).map diversity_key).Nodup := by
          rw [List.map_append, List.map_cons, List.map_nil, List.nodup_append]
          refine ⟨hnd, List.nodup_singleton _, ?_⟩
          intro a ha hb
          rw [List.mem_singleton] at hb
          subst hb
          exact hdknew ha
        have hstep : greedyLoop n (p :: rest) sel ec dk =
            if (sel ++ [p]).length = 4 then sel ++ [p]
            else greedyLoop n rest (sel ++ [p])
              (fun x => if x = era p.birth_year then ec (era p.birth_year) + 1 else ec x)
              (fun k => if k = diversity_key p then true else dk k) := by
          simp [greedyLoop, hskip1, hskip2]
        rw [hstep]
        by_cases hfour : (sel ++ [p]).length = 4
        · rw [if_pos hfour]
          exact ⟨hcap', hnd'⟩
        · rw [if_neg hfour]
          refine ih (sel ++ [p]) _ _ ?_ ?_ hcap' hnd'
          · intro e
            by_cases he : e = era p.birth_year
            · rw [if_pos he, he, hec (era p.birth_year)]
              simp [countEra, List.filter_append]
            · rw [if_neg he, hec e]
              have hne : ¬(era p.birth_year = e) := fun hc => he hc.symm
              simp [countEra, List.filter_append, hne]
          · intro k
            by_cases hk : k = diversity_key p
            · rw [if_pos hk, hk]
              simp
            · rw [if_neg hk, hdk k]
              simp [hk]

/-- C3 counterexample: seven distinct candidates sharing one diversity key
and one era form a pool above the relaxation threshold, yet `select_four`
returns four candidates with the same key (used four times, not once) and
the same era bucket (used four times, not twice): the fill pass that
repairs a short greedy selection ignores both caps. -/
theorem C3_counterexample_caps_violated :
    c3CapsPool.length > 6 ∧
    ((select_four c3CapsPool).map diversity_key).Nodup = False ∧
    countEra (select_four c3CapsPool) (S "1850-1939") = 4 := by
  refine ⟨by decide, ?_, by decide⟩
  simp only [eq_iff_iff, iff_false]
  decide

/-- C3 amended: when the pool is above the relaxation threshold AND the
greedy pass alone fills all four slots (so the cap-ignoring fill pass never
runs), the returned selection has at most two candidates per era bucket and
never repeats a diversity key. -/
theorem C3_caps_when_greedy_fills (ranked : List Candidate)
    (h6 : ranked.length > 6) (hfull : (greedyPhase ranked).length = 4) :
    (∀ e, countEra (select_four ranked) e ≤ 2) ∧
    ((select_four ranked).map diversity_key).Nodup := by
  have hsel : select_four ranked = greedyPhase ranked := by
    unfold select_four
    have hle : ¬ranked.length ≤ 4 := by omega
    simp only [hle, if_false, hfull]
    norm_num
    omega
  rw [hsel]
  exact greedyLoop_caps ranked.length h6 ranked [] (fun _ => 0) (fun _ => false)
    (fun e => by simp [countEra]) (fun k => by simp) (fun e => by simp [countEra])
    (by simp)

/-- C3 witness: seven distinct candidates with distinct keys and spread
eras; the greedy pass fills all four slots and the caps hold. -/
theorem C3_caps_when_greedy_fills_witness :
    ((select_four c3GreedyPool).map diversity_key).Nodup :=
  (C3_caps_when_greedy_fills c3GreedyPool (by decide) (by decide)).2

/-! ## C6 — idempotence of section classification -/

/-- A string without a double newline splits into itself. -/
theorem splitNN_no_sep : ∀ l : Str, hasDoubleNl l = false → splitNN l = [l] := by
  intro l
  induction l with
  | nil => intro _; rfl
  | cons c cs ih =>
    cases cs with
    | nil => intro _; rfl
    | cons d rest =>
      intro h
      rw [hasDoubleNl, Bool.or_eq_false_iff] at h
      have hnot : ¬(c = '\n' ∧ d = '\n') := by
        intro ⟨h1, h2⟩
        simp [h1, h2] at h
      rw [splitNN, if_neg hnot, ih h.2]
      rfl

/-- Splitting recovers a paragraph glued before a double newline, provided
the paragraph has no double newline inside and does not end in a newline. -/
theorem splitNN_join_cons :
    ∀ p t : Str, hasDoubleNl p = false → p.getLast? ≠ some '\n' →
      splitNN (p ++ '\n' :: '\n' :: t) = p :: splitNN t := by
  intro p
  induction p with
  | nil =>
    intro t _ _
    simp [splitNN]
  | cons c p' ih =>
    intro t hnn hlast
    cases p' with
    | nil =>
      have hc : ¬(c = '\n' ∧ ('\n' : Char) = '\n') := by
        intro ⟨h1, _⟩
        simp [h1] at hlast
      show splitNN (c :: '\n' :: '\n' :: t) = [c] :: splitNN t
      rw [splitNN, if_neg hc]
      have : splitNN ('\n' :: '\n' :: t) = [] :: splitNN t := by simp [splitNN]
      rw [this]
      rfl
    | cons d p'' =>
      rw [hasDoubleNl, Bool.or_eq_false_iff] at hnn
      have hnot : ¬(c = '\n' ∧ d = '\n') := by
        intro ⟨h1, h2⟩
        simp [h1, h2] at hnn
      have hlast' : (d :: p'').getLast? ≠ some '\n' := by
        simpa [List.getLast?_cons_cons] using hlast
      show splitNN (c :: ((d :: p'') ++ '\n' :: '\n' :: t)) = _
      rw [List.cons_append, splitNN, if_neg (by simpa using hnot),
        ← List.cons_append, ih t hnn.2 hlast']
      rfl

/-- Splitting a double-newline join recovers the pieces. -/
theorem splitNN_joinNN :
    ∀ ps : List Str, ps ≠ [] →
      (∀ p ∈ ps, hasDoubleNl p = false ∧ p.getLast? ≠ some '\n') →
      splitNN (joinNN ps) = ps := by
  intro ps
  induction ps with
  | nil => intro h _; exact absurd rfl h
  | cons p qs ih =>
    intro _ hwf
    cases qs with
    | nil =>
      exact splitNN_no_sep p (hwf p (List.mem_singleton_self p)).1
    | cons q rest =>
      show splitNN (p ++ '\n' :: '\n' :: joinNN (q :: rest)) = _
      rw [splitNN_join_cons p _ (hwf p (List.mem_cons_self _ _)).1
        (hwf p (List.mem_cons_self _ _)).2]
      rw [ih (by simp) (fun r hr => hwf r (List.mem_cons_of_mem _ hr))]

/-- Splitting on a character not occurring in the string yields the whole
string. -/
theorem splitOnChar_no_sep (sep : Char) :
    ∀ l : Str, sep ∉ l → splitOnChar sep l = [l] := by
  intro l
  induction l with
  | nil => intro _; rfl
  | cons c cs ih =>
    intro h
    have hc : ¬(c = sep) := fun hc => h (hc ▸ List.mem_cons_self c cs)
    rw [splitOnChar, if_neg hc, ih (fun hm => h (List.mem_cons_of_mem c hm))]

/-- A non-empty single-line string is its own line list. -/
theorem pySplitlines_single (h : Str) (hnl : '\n' ∉ h) (hne : h ≠ []) :
    pySplitlines h = [h] := by
  rw [pySplitlines, splitOnChar_no_sep '\n' h hnl]
  simp [hne]

/-- A stripped non-empty single-line string is its own first line. -/
theorem firstLineOf_single (h : Str) (hnl : '\n' ∉ h) (hne : h ≠ [])
    (htr : trimC h = h) : firstLineOf h = h := by
  rw [firstLineOf, pySplitlines_single h hnl hne]
  simpa using htr

/-- When every section carries a header, the reconstruction pieces are the
header/body paragraph list. -/
theorem reconstructPieces_eq_sectionParas :
    ∀ secs : List Section, (∀ s ∈ secs, s.header ≠ []) →
      reconstructPieces secs = sectionParas secs := by
  intro secs
  induction secs with
  | nil => intro _; rfl
  | cons s rest ih =>
    intro h
    have hs : s.header ≠ [] := h s (List.mem_cons_self _ _)
    simp only [reconstructPieces, sectionParas, List.flatMap_cons, hs, if_false]
    rw [show rest.flatMap (fun s => if s.header = [] then [s.text]
        else [s.header, s.text]) = reconstructPieces rest from rfl,
      ih (fun q hq => h q (List.mem_cons_of_mem _ hq))]
    rfl

/-- Unfolding of the paragraph list over a leading section. -/
theorem sectionParas_cons (s : Section) (l : List Section) :
    sectionParas (s :: l) = s.header :: s.text :: sectionParas l := by
  simp [sectionParas]

/-- Replaying the splitter over the paragraph list of well-formed sections
(each with a pending body) reproduces the sections. -/
theorem splitSectionsLoop_replay :
    ∀ secs : List Section,
      (∀ s ∈ secs, bodyWF s.text ∧ headerWF s.header ∧ s.header ≠ [] ∧
        s.multiplier = section_score s.header) →
      ∀ ch t, bodyWF t →
        splitSectionsLoop (sectionParas secs) ch [t] =
          ⟨ch, t, section_score ch⟩ :: secs := by
  intro secs
  induction secs with
  | nil =>
    intro _ ch t _
    simp [sectionParas, splitSectionsLoop, joinSp]
  | cons s secs' ih =>
    intro hwf ch t _
    obtain ⟨⟨hb1, hb2, hb3, hb4, hb5⟩, ⟨hh1, hh2, hh3, hh4, hh5⟩, hne, hmult⟩ :=
      hwf s (List.mem_cons_self _ _)
    have hfl : firstLineOf s.header = s.header := firstLineOf_single s.header hh2 hne hh1
    have hrec := ih (fun q hq => hwf q (List.mem_cons_of_mem _ hq)) s.header s.text
      ⟨hb1, hb2, hb3, hb4, hb5⟩
    calc splitSectionsLoop (sectionParas (s :: secs')) ch [t]
        = ⟨ch, t, section_score ch⟩ ::
            splitSectionsLoop (sectionParas secs') s.header [s.text] := by
          rw [sectionParas_cons]
          simp [splitSectionsLoop, hh1, hne, hh5, hfl, hb1, hb2, hb5, joinSp]
      _ = ⟨ch, t, section_score ch⟩ ::
            (⟨s.header, s.text, section_score s.header⟩ :: secs') := by rw [hrec]
      _ = ⟨ch, t, section_score ch⟩ :: s :: secs' := by rw [← hmult]

/-- C6 counterexample: splitting `c6BadDoc` yields the header `Intro`, but
re-splitting the reconstructed document loses it — the section's body
paragraphs, space-joined on reconstruction, form a single short unpunctuated
line that the classifier reads as a header, emptying the section list. -/
theorem C6_counterexample_not_idempotent :
    headersOf (split_sections c6BadDoc) = [S "Intro"] ∧
    headersOf (split_sections (reconstructDoc (split_sections c6BadDoc))) = [] := by
  constructor <;> decide

/-- C6 amended: re-splitting the reconstructed document reproduces the
original sections — in particular the same header set — provided the split
is well formed: no section's body is itself header-shaped (the condition
the counterexample violates), bodies are non-blank stripped paragraphs
without double newlines, headers pass the header test, and only the leading
section may lack a header. -/
theorem C6_idempotent_when_bodies_not_headerlike (doc : Str)
    (hwf : sectWF (split_sections doc)) :
    headersOf (split_sections (reconstructDoc (split_sections doc))) =
      headersOf (split_sections doc) := by
  suffices h : split_sections (reconstructDoc (split_sections doc)) =
      split_sections doc by rw [h]
  obtain ⟨hall, htail⟩ := hwf
  cases hsecs : split_sections doc with
  | nil => decide
  | cons s0 rest =>
    rw [hsecs] at hall htail
    have hallrest : ∀ q ∈ rest, bodyWF q.text ∧ headerWF q.header ∧ q.header ≠ [] ∧
        q.multiplier = section_score q.header := by
      intro q hq
      have hq' := hall q (List.mem_cons_of_mem _ hq)
      have hqne : q.header ≠ [] := htail q hq
      exact ⟨hq'.1, hq'.2.1.resolve_left hqne, hqne, hq'.2.2⟩
    obtain ⟨hb0, hh0, hm0⟩ := hall s0 (List.mem_cons_self _ _)
    have hparaswf : ∀ p ∈ sectionParas rest,
        hasDoubleNl p = false ∧ p.getLast? ≠ some '\n' := by
      intro p hp
      simp only [sectionParas] at hp
      obtain ⟨q, hq, hpq⟩ := List.mem_flatMap.mp hp
      obtain ⟨hqb, hqh, _, _⟩ := hallrest q hq
      rcases List.mem_cons.mp hpq with heq | hpq'
      · subst heq
        exact ⟨hqh.2.2.1, hqh.2.2.2.1⟩
      · rcases List.mem_singleton.mp hpq' with heq
        subst heq
        exact ⟨hqb.2.2.1, hqb.2.2.2.1⟩
    have hrestparas : rest.flatMap (fun s => if s.header = [] then [s.text]
        else [s.header, s.text]) = sectionParas rest :=
      reconstructPieces_eq_sectionParas rest htail
    by_cases h0 : s0.header = []
    · have hpieces : reconstructPieces (s0 :: rest) = s0.text :: sectionParas rest := by
        simp only [reconstructPieces, List.flatMap_cons, h0, if_pos]
        rw [show rest.flatMap (fun s => if s.header = [] then [s.text]
          else [s.header, s.text]) = sectionParas rest from hrestparas]
        rfl
      have hsplit : splitNN (joinNN (s0.text :: sectionParas rest)) =
          s0.text :: sectionParas rest := by
        apply splitNN_joinNN _ (by simp)
        intro p hp
        rcases List.mem_cons.mp hp with heq | hp'
        · subst heq
          exact ⟨hb0.2.2.1, hb0.2.2.2.1⟩
        · exact hparaswf p hp'
      show split_sections (joinNN (reconstructPieces (s0 :: rest))) = s0 :: rest
      rw [hpieces]
      simp only [split_sections]
      rw [hsplit]
      have hstep : splitSectionsLoop (s0.text :: sectionParas rest) [] [] =
          splitSectionsLoop (sectionParas rest) [] [s0.text] := by
        simp [splitSectionsLoop, hb0.2.1, hb0.1, hb0.2.2.2.2]
      rw [hstep, splitSectionsLoop_replay rest hallrest [] s0.text hb0]
      have hsec0 : (⟨[], s0.text, section_score []⟩ : Section) = s0 := by
        rw [show ([] : Str) = s0.header from h0.symm, ← hm0]
      rw [hsec0]
    · have hhwf := hh0.resolve_left h0
      have hpieces : reconstructPieces (s0 :: rest) =
          s0.header :: s0.text :: sectionParas rest := by
        simp only [reconstructPieces, List.flatMap_cons, h0, if_false]
        rw [show rest.flatMap (fun s => if s.header = [] then [s.text]
          else [s.header, s.text]) = sectionParas rest from hrestparas]
        rfl
      have hsplit : splitNN (joinNN (s0.header :: s0.text :: sectionParas rest)) =
          s0.header :: s0.text :: sectionParas rest := by
        apply splitNN_joinNN _ (by simp)
        intro p hp
        rcases List.mem_cons.mp hp with heq | hp'
        · subst heq
          exact ⟨hhwf.2.2.1, hhwf.2.2.2.1⟩
        · rcases List.mem_cons.mp hp' with heq | hp''
          · subst heq
            exact ⟨hb0.2.2.1, hb0.2.2.2.1⟩
          · exact hparaswf p hp''
      show split_sections (joinNN (reconstructPieces (s0 :: rest))) = s0 :: rest
      rw [hpieces]
      simp only [split_sections]
      rw [hsplit]
      have hfl : firstLineOf s0.header = s0.header :=
        firstLineOf_single s0.header hhwf.2.1 h0 hhwf.1
      have hstep1 : splitSectionsLoop (s0.header :: s0.text :: sectionParas rest) [] [] =
          splitSectionsLoop (s0.text :: sectionParas rest) s0.header [] := by
        simp [splitSectionsLoop, hhwf.1, h0, hhwf.2.2.2.2, hfl]
      have hstep2 : splitSectionsLoop (s0.text :: sectionParas rest) s0.header [] =
          splitSectionsLoop (sectionParas rest) s0.header [s0.text] := by
        simp [splitSectionsLoop, hb0.2.1, hb0.1, hb0.2.2.2.2]
      rw [hstep1, hstep2, splitSectionsLoop_replay rest hallrest s0.header s0.text hb0]
      have hsec0 : (⟨s0.header, s0.text, section_score s0.header⟩ : Section) = s0 := by
        rw [← hm0]
      rw [hsec0]

/-- C6 witness: a well-formed one-section document round-trips; its header
set is preserved. -/
theorem C6_idempotent_witness :
    headersOf (split_sections (reconstructDoc (split_sections c6GoodDoc))) =
      headersOf (split_sections c6GoodDoc) :=
  C6_idempotent_when_bodies_not_headerlike c6GoodDoc (by constructor <;> decide)

end WikiDigest
